import Mathlib

/-
Verification of the `ParamDict` named-tensor-map arithmetic in
`src/disc/utils/tools.py` (class `ParamDict(OrderedDict)`).

Shallow embedding choices:
  * A tensor is modelled as a rational value together with a device tag
    (`cpu` or `cuda`); tensor arithmetic is exact rational arithmetic and
    `.cpu()` sets the device tag to `cpu` while keeping the value.
  * A `ParamDict` is an association list of (string key, tensor) pairs; an
    `OrderedDict` has unique keys and iterates in insertion order, so
    iterating `for k in self` and reading `self[k]` visits exactly the
    entries of the association list in order.
  * Fallible Python code (KeyError on `other[k]`, `raise NotImplementedError`,
    failing attribute access `other.__neg__()`, constructor `TypeError` /
    `ValueError`) is modelled with `Except Err`.
-/

inductive Device where
  | cpu
  | cuda
  deriving DecidableEq, Repr

structure Tensor where
  val : ℚ
  dev : Device
  deriving DecidableEq, Repr

/-- Placeholder tensor used only to totalise lookups that cannot fail in
real runs. -/
def zeroT : Tensor := ⟨0, Device.cpu⟩

instance : Inhabited Tensor := ⟨zeroT⟩

/-- `t.cpu()`: the tensor's data moved to host (CPU) memory; value unchanged. -/
def Tensor.cpu (t : Tensor) : Tensor := ⟨t.val, Device.cpu⟩

/-- `op(v, s)` for a tensor `v` and a Python scalar `s`: elementwise
arithmetic keeps the tensor's device. -/
def Tensor.scalarOp (op : ℚ → ℚ → ℚ) (v : Tensor) (s : ℚ) : Tensor :=
  ⟨op v.val s, v.dev⟩

/-- `op(a, b)` for two tensors: elementwise arithmetic; in `ParamDict` this is
only ever applied after both operands were moved to `cpu`, and the result
lives on the (shared) device of the operands. -/
def Tensor.binop (op : ℚ → ℚ → ℚ) (a b : Tensor) : Tensor :=
  ⟨op a.val b.val, a.dev⟩

/-- `-v` on a tensor: negate the value, keep the device. -/
def Tensor.negT (v : Tensor) : Tensor := ⟨-v.val, v.dev⟩

abbrev ParamDict := List (String × Tensor)

/-- Errors raised by the Python code. -/
inductive Err where
  | notImplemented
  | keyErr (k : String)
  | attrErr
  | typeErr
  | valueErr
  deriving DecidableEq, Repr

/-- The `other` argument of the arithmetic dunders: a `Number`, a `dict`
(another named-tensor map), or any other Python object. -/
inductive Operand where
  | num (s : ℚ)
  | dict (d : ParamDict)
  | other
  deriving Repr

/-- Scalar branch of `ParamDict._prototype`:
`ParamDict({k: op(v, other).cpu() for k, v in self.items()})`. -/
def protoNum (op : ℚ → ℚ → ℚ) (s : ℚ) (self : ParamDict) : ParamDict :=
  self.map fun p => (p.1, Tensor.cpu (Tensor.scalarOp op p.2 s))

/-- Dict branch of `ParamDict._prototype`:
`ParamDict({k: op(self[k].cpu(), other[k].cpu()) for k in self})`.
The comprehension runs over `self`'s keys in order; `self[k]` is the entry's
own value (keys are unique); `other[k]` raises `KeyError` when `k` is not a
key of `other`, aborting the comprehension at the first missing key. -/
def protoDict (op : ℚ → ℚ → ℚ) (d : ParamDict) : ParamDict → Except Err ParamDict
  | [] => Except.ok []
  | p :: rest =>
    match List.lookup p.1 d with
    | none => Except.error (Err.keyErr p.1)
    | some t =>
      (protoDict op d rest).map
        (fun tl => (p.1, Tensor.binop op (Tensor.cpu p.2) (Tensor.cpu t)) :: tl)

/-- `ParamDict._prototype(self, other, op)`: dispatch on the operand kind;
`raise NotImplementedError` when `other` is neither a `Number` nor a `dict`. -/
def ParamDict.prototype (self : ParamDict) (other : Operand) (op : ℚ → ℚ → ℚ) :
    Except Err ParamDict :=
  match other with
  | Operand.num s => Except.ok (protoNum op s self)
  | Operand.dict d => protoDict op d self
  | Operand.other => Except.error Err.notImplemented

/-- `ParamDict.__add__(self, other) = self._prototype(other, operator.add)`. -/
def ParamDict.add (self : ParamDict) (other : Operand) : Except Err ParamDict :=
  ParamDict.prototype self other (fun a b => a + b)

/-- `ParamDict.__rmul__(self, other) = self._prototype(other, operator.mul)`;
`__mul__ = __rmul__`. -/
def ParamDict.mul (self : ParamDict) (other : Operand) : Except Err ParamDict :=
  ParamDict.prototype self other (fun a b => a * b)

/-- `ParamDict.__neg__(self) = ParamDict({k: -v for k, v in self.items()})`:
no `.cpu()` call, devices are untouched. -/
def ParamDict.neg (self : ParamDict) : ParamDict :=
  self.map fun p => (p.1, Tensor.negT p.2)

/-- `other.__neg__()` as evaluated inside `ParamDict.__rsub__`: scalars and
dicts negate; any other object fails the attribute lookup. -/
def Operand.negOp : Operand → Except Err Operand
  | Operand.num s => Except.ok (Operand.num (-s))
  | Operand.dict d => Except.ok (Operand.dict (ParamDict.neg d))
  | Operand.other => Except.error Err.attrErr

/-- `ParamDict.__rsub__(self, other) = self.__add__(other.__neg__())`. -/
def ParamDict.rsub (self : ParamDict) (other : Operand) : Except Err ParamDict :=
  (Operand.negOp other).bind (fun no => ParamDict.add self no)

/-- `ParamDict.__sub__ = ParamDict.__rsub__` (alias in the class body). -/
def ParamDict.sub : ParamDict → Operand → Except Err ParamDict :=
  ParamDict.rsub

/-- `ParamDict.__truediv__(self, other) = self._prototype(other, operator.truediv)`. -/
def ParamDict.div (self : ParamDict) (other : Operand) : Except Err ParamDict :=
  ParamDict.prototype self other (fun a b => a / b)

/-- Key list of a map. -/
def keysOf (d : ParamDict) : List String := d.map Prod.fst

/-- Value contents of a map: keys paired with the tensors' numeric values
(ignoring device placement). -/
def vals (d : ParamDict) : List (String × ℚ) := d.map fun p => (p.1, p.2.val)

/-- Two maps have identical key sets. -/
def keysMatch (A B : ParamDict) : Prop :=
  (∀ p ∈ A, (List.lookup p.1 B).isSome = true) ∧
  (∀ p ∈ B, (List.lookup p.1 A).isSome = true)

instance (A B : ParamDict) : Decidable (keysMatch A B) := by
  unfold keysMatch; infer_instance

instance {ε α : Type} [DecidableEq ε] [DecidableEq α] : DecidableEq (Except ε α) := fun x y =>
  match x, y with
  | Except.ok a, Except.ok b =>
    if h : a = b then Decidable.isTrue (by rw [h])
    else Decidable.isFalse (fun hc => h (by injection hc))
  | Except.error a, Except.error b =>
    if h : a = b then Decidable.isTrue (by rw [h])
    else Decidable.isFalse (fun hc => h (by injection hc))
  | Except.ok _, Except.error _ => Decidable.isFalse (fun hc => Except.noConfusion hc)
  | Except.error _, Except.ok _ => Decidable.isFalse (fun hc => Except.noConfusion hc)

/-- `Except` success test. -/
def exOk {α : Type} : Except Err α → Bool
  | Except.ok _ => true
  | Except.error _ => false

/-- The result is a `KeyError` (key-mismatch lookup failure). -/
def isKeyErr {α : Type} : Except Err α → Bool
  | Except.error (Err.keyErr _) => true
  | _ => false

/-
Heap model, used for the immutability claim: Python tensors are objects on a
heap. A `Store` is the heap (a list of tensor cells, addresses are indices);
an `HDict` maps keys to cell addresses. Every tensor produced by an
arithmetic expression in the comprehensions (`op(...)`, `-v`, `.cpu()` chains)
is a fresh object: it is modelled as one freshly allocated cell holding the
final tensor value, appended at the end of the store. Existing cells are
never written.
-/

abbrev Store := List Tensor

abbrev HDict := List (String × Nat)

/-- Dereference an address (reads out of real runs are always in bounds;
out-of-bounds reads default to a zero tensor to keep the model total). -/
def readT (st : Store) (a : Nat) : Tensor := st.getD a zeroT

/-- The observable key-value contents of a heap dict: keys paired with the
tensors their addresses currently hold. -/
def contentOf (st : Store) (d : HDict) : List (String × Tensor) :=
  d.map fun p => (p.1, readT st p.2)

/-- Common shape of the allocating comprehensions
`ParamDict({k: e(v) for k, v in self.items()})`: for each entry in order,
compute `e` of the dereferenced value and allocate a fresh cell for it. -/
def allocMapH (f : Tensor → Tensor) : Store → HDict → Store × HDict
  | st, [] => (st, [])
  | st, p :: rest =>
    let res := allocMapH f (st ++ [f (readT st p.2)]) rest
    (res.1, (p.1, st.length) :: res.2)

/-- Heap version of the scalar branch of `_prototype`:
each entry becomes `op(v, other).cpu()`, a fresh tensor. -/
def protoNumH (op : ℚ → ℚ → ℚ) (s : ℚ) (st : Store) (self : HDict) : Store × HDict :=
  allocMapH (fun v => Tensor.cpu (Tensor.scalarOp op v s)) st self

/-- Heap version of the dict branch of `_prototype`:
each entry becomes `op(self[k].cpu(), other[k].cpu())`, a fresh tensor;
a missing key in `other` raises `KeyError` at that entry. -/
def protoDictH (op : ℚ → ℚ → ℚ) (d : HDict) : Store → HDict → Except Err (Store × HDict)
  | st, [] => Except.ok (st, [])
  | st, p :: rest =>
    match List.lookup p.1 d with
    | none => Except.error (Err.keyErr p.1)
    | some b =>
      let r := Tensor.binop op (Tensor.cpu (readT st p.2)) (Tensor.cpu (readT st b))
      (protoDictH op d (st ++ [r]) rest).map (fun q => (q.1, (p.1, st.length) :: q.2))

/-- Operand of a heap-level arithmetic call. -/
inductive OperandH where
  | num (s : ℚ)
  | dict (d : HDict)
  | other

/-- Heap version of `ParamDict._prototype`. -/
def prototypeH (st : Store) (self : HDict) (o : OperandH) (op : ℚ → ℚ → ℚ) :
    Except Err (Store × HDict) :=
  match o with
  | OperandH.num s => Except.ok (protoNumH op s st self)
  | OperandH.dict d => protoDictH op d st self
  | OperandH.other => Except.error Err.notImplemented

/-- Heap version of `ParamDict.__add__`. -/
def addH (st : Store) (self : HDict) (o : OperandH) : Except Err (Store × HDict) :=
  prototypeH st self o (fun a b => a + b)

/-- Heap version of `ParamDict.__mul__` / `__rmul__`. -/
def mulH (st : Store) (self : HDict) (o : OperandH) : Except Err (Store × HDict) :=
  prototypeH st self o (fun a b => a * b)

/-- Heap version of `ParamDict.__truediv__`. -/
def divH (st : Store) (self : HDict) (o : OperandH) : Except Err (Store × HDict) :=
  prototypeH st self o (fun a b => a / b)

/-- Heap version of `ParamDict.__neg__`: each entry becomes `-v`, a fresh
tensor (no `.cpu()`). -/
def negH (st : Store) (self : HDict) : Store × HDict :=
  allocMapH Tensor.negT st self

/-- Heap version of `ParamDict.__rsub__` (and hence `__sub__`):
`self.__add__(other.__neg__())`; for a dict operand the negated copy of the
operand is materialised first, for a scalar the negated scalar is used, and
any other operand fails the `__neg__` attribute access. -/
def subH (st : Store) (self : HDict) (o : OperandH) : Except Err (Store × HDict) :=
  match o with
  | OperandH.num s => addH st self (OperandH.num (-s))
  | OperandH.dict d =>
    let nd := negH st d
    addH nd.1 self (OperandH.dict nd.2)
  | OperandH.other => Except.error Err.attrErr

/-
Constructor model (`ParamDict.__init__`): the body is
`super().__init__(*args, *kwargs)` — note `*kwargs`, which unpacks only the
KEYS of the keyword mapping and passes them as extra positional arguments to
`OrderedDict.__init__`, instead of `**kwargs` which would pass the pairs.
-/

/-- A positional argument as seen by `OrderedDict.__init__`: either a
mapping (the intended use) or a bare string (what a kwarg key becomes
after `*kwargs` unpacking). -/
inductive InitArg where
  | mapping (d : ParamDict)
  | str (s : String)

/-- `OrderedDict.__init__(self, *args)`: zero arguments build an empty dict;
one mapping argument copies it; one string argument is iterated as a
sequence of would-be pairs, and any nonempty string fails with `ValueError`
because its elements are single characters, not pairs; more than one
positional argument fails with `TypeError` (`expected at most 1 arguments`). -/
def odictInit : List InitArg → Except Err ParamDict
  | [] => Except.ok []
  | [InitArg.mapping d] => Except.ok d
  | [InitArg.str s] => if s = "" then Except.ok [] else Except.error Err.valueErr
  | _ => Except.error Err.typeErr

/-- `ParamDict.__init__(self, *args, **kwargs)`, whose body forwards
`super().__init__(*args, *kwargs)`: the kwarg KEYS are appended to the
positional argument list as bare strings. -/
def ParamDict.init (args : List InitArg) (kwargs : List (String × Tensor)) :
    Except Err ParamDict :=
  odictInit (args ++ kwargs.map (fun p => InitArg.str p.1))

/-- An arithmetic call with a scalar operand leaves its operand's key-value
contents unchanged and returns a map of freshly allocated cells. -/
def preservesNumOp (run : Store → HDict → OperandH → Except Err (Store × HDict)) : Prop :=
  ∀ (st : Store) (X : HDict) (s : ℚ) (st' : Store) (r : HDict),
    run st X (OperandH.num s) = Except.ok (st', r) →
    (∀ p ∈ X, p.2 < st.length) →
    contentOf st' X = contentOf st X ∧ (∀ p ∈ r, st.length ≤ p.2)

/-- An arithmetic call with a map operand leaves both operands' key-value
contents unchanged and returns a map of freshly allocated cells. -/
def preservesDictOp (run : Store → HDict → OperandH → Except Err (Store × HDict)) : Prop :=
  ∀ (st : Store) (X Y : HDict) (st' : Store) (r : HDict),
    run st X (OperandH.dict Y) = Except.ok (st', r) →
    (∀ p ∈ X, p.2 < st.length) → (∀ p ∈ Y, p.2 < st.length) →
    contentOf st' X = contentOf st X ∧ contentOf st' Y = contentOf st Y ∧
      (∀ p ∈ r, st.length ≤ p.2)

/- Helper lemmas. -/

lemma isKeyErr_map {α β : Type} (f : α → β) (e : Except Err α) :
    isKeyErr (Except.map f e) = isKeyErr e := by
  cases e with
  | ok a => rfl
  | error e => cases e <;> rfl

lemma lookup_neg (k : String) (B : ParamDict) :
    List.lookup k (ParamDict.neg B) = (List.lookup k B).map Tensor.negT := by
  induction B with
  | nil => rfl
  | cons p rest ih =>
    show List.lookup k ((p.1, Tensor.negT p.2) :: ParamDict.neg rest) = _
    cases hk : k == p.1 <;> simp [List.lookup, hk, ih]

lemma protoDict_ok (op : ℚ → ℚ → ℚ) (d : ParamDict) (self : ParamDict)
    (h : ∀ p ∈ self, (List.lookup p.1 d).isSome = true) :
    protoDict op d self = Except.ok (self.map fun p =>
      (p.1, Tensor.binop op (Tensor.cpu p.2) (Tensor.cpu ((List.lookup p.1 d).getD zeroT)))) := by
  induction self with
  | nil => rfl
  | cons p rest ih =>
    have hp : (List.lookup p.1 d).isSome = true := h p (by simp)
    obtain ⟨t, ht⟩ := Option.isSome_iff_exists.mp hp
    have hr := ih (fun q hq => h q (by simp [hq]))
    simp [protoDict, ht, hr, Except.map]

lemma protoDict_err (op : ℚ → ℚ → ℚ) (d : ParamDict) (self : ParamDict)
    (h : ∃ p ∈ self, List.lookup p.1 d = none) :
    isKeyErr (protoDict op d self) = true := by
  induction self with
  | nil => obtain ⟨p, hp, _⟩ := h; cases hp
  | cons p rest ih =>
    cases hl : List.lookup p.1 d with
    | none => simp [protoDict, hl, isKeyErr]
    | some t =>
      obtain ⟨q, hq, hqn⟩ := h
      have hrest : ∃ q ∈ rest, List.lookup q.1 d = none := by
        rcases List.mem_cons.mp hq with h1 | h2
        · rw [h1] at hqn; rw [hqn] at hl; cases hl
        · exact ⟨q, h2, hqn⟩
      have hrec := ih hrest
      simp [protoDict, hl, isKeyErr_map, hrec]

lemma prototype_dev (A : ParamDict) (o : Operand) (op : ℚ → ℚ → ℚ) (r : ParamDict)
    (h : ParamDict.prototype A o op = Except.ok r) :
    ∀ p ∈ r, p.2.dev = Device.cpu := by
  cases o with
  | num s =>
    injection h with h
    subst h
    intro p hp
    obtain ⟨q, _, rfl⟩ := List.mem_map.mp hp
    rfl
  | dict d =>
    show ∀ p ∈ r, p.2.dev = Device.cpu
    have : ∀ (self r' : ParamDict), protoDict op d self = Except.ok r' →
        ∀ p ∈ r', p.2.dev = Device.cpu := by
      intro self
      induction self with
      | nil =>
        intro r' h'
        injection h' with h'
        subst h'
        intro p hp
        cases hp
      | cons p rest ih =>
        intro r' h'
        cases hl : List.lookup p.1 d with
        | none => rw [protoDict, hl] at h'; cases h'
        | some t =>
          rw [protoDict, hl] at h'
          cases hres : protoDict op d rest with
          | error e => rw [hres] at h'; cases h'
          | ok tl =>
            rw [hres] at h'
            injection h' with h'
            subst h'
            intro q hq
            rcases List.mem_cons.mp hq with h1 | h2
            · rw [h1]; rfl
            · exact ih tl hres q h2
    exact this A r h
  | other => cases h

lemma allocMapH_store (f : Tensor → Tensor) :
    ∀ (self : HDict) (st : Store), ∃ ext, (allocMapH f st self).1 = st ++ ext := by
  intro self
  induction self with
  | nil => intro st; exact ⟨[], by simp [allocMapH]⟩
  | cons p rest ih =>
    intro st
    obtain ⟨ext, hext⟩ := ih (st ++ [f (readT st p.2)])
    exact ⟨f (readT st p.2) :: ext, by simp [allocMapH, hext]⟩

lemma allocMapH_fresh (f : Tensor → Tensor) :
    ∀ (self : HDict) (st : Store), ∀ q ∈ (allocMapH f st self).2, st.length ≤ q.2 := by
  intro self
  induction self with
  | nil => intro st q hq; simp [allocMapH] at hq
  | cons p rest ih =>
    intro st q hq
    simp only [allocMapH, List.mem_cons] at hq
    rcases hq with h1 | h2
    · rw [h1]
    · have := ih (st ++ [f (readT st p.2)]) q h2
      simp at this
      omega

lemma protoDictH_extends (op : ℚ → ℚ → ℚ) (d : HDict) :
    ∀ (self : HDict) (st st' : Store) (r : HDict),
      protoDictH op d st self = Except.ok (st', r) →
      (∃ ext, st' = st ++ ext) ∧ (∀ q ∈ r, st.length ≤ q.2) := by
  intro self
  induction self with
  | nil =>
    intro st st' r h
    injection h with h
    injection h with h1 h2
    subst h1; subst h2
    exact ⟨⟨[], by simp⟩, by intro q hq; cases hq⟩
  | cons p rest ih =>
    intro st st' r h
    cases hl : List.lookup p.1 d with
    | none => simp only [protoDictH, hl] at h; cases h
    | some b =>
      simp only [protoDictH, hl] at h
      cases hres : protoDictH op d
          (st ++ [Tensor.binop op (Tensor.cpu (readT st p.2)) (Tensor.cpu (readT st b))]) rest with
      | error e => rw [hres] at h; simp only [Except.map] at h; cases h
      | ok q2 =>
        rw [hres] at h
        simp only [Except.map] at h
        injection h with h
        injection h with h1 h2
        subst h1; subst h2
        obtain ⟨⟨ext, hext⟩, hfr⟩ := ih _ q2.1 q2.2 (by rw [hres])
        constructor
        · exact ⟨Tensor.binop op (Tensor.cpu (readT st p.2)) (Tensor.cpu (readT st b)) :: ext,
            by simp [hext]⟩
        · intro q hq
          rcases List.mem_cons.mp hq with h1 | h2
          · rw [h1]
          · have := hfr q h2
            simp at this
            omega

lemma contentOf_extend (st ext : Store) (X : HDict) (h : ∀ p ∈ X, p.2 < st.length) :
    contentOf (st ++ ext) X = contentOf st X := by
  unfold contentOf
  apply List.map_congr_left
  intro p hp
  have hlt := h p hp
  simp only [readT]
  rw [List.getD_append _ _ _ _ hlt]

lemma prototypeH_extends (st : Store) (self : HDict) (o : OperandH) (op : ℚ → ℚ → ℚ)
    (st' : Store) (r : HDict) (h : prototypeH st self o op = Except.ok (st', r)) :
    (∃ ext, st' = st ++ ext) ∧ (∀ q ∈ r, st.length ≤ q.2) := by
  cases o with
  | num s =>
    injection h with h
    have h1 : (protoNumH op s st self).1 = st' := by rw [h]
    have h2 : (protoNumH op s st self).2 = r := by rw [h]
    subst h1; subst h2
    exact ⟨allocMapH_store _ self st, allocMapH_fresh _ self st⟩
  | dict d => exact protoDictH_extends op d self st st' r h
  | other => cases h

lemma subH_extends (st : Store) (self : HDict) (o : OperandH)
    (st' : Store) (r : HDict) (h : subH st self o = Except.ok (st', r)) :
    (∃ ext, st' = st ++ ext) ∧ (∀ q ∈ r, st.length ≤ q.2) := by
  cases o with
  | num s => exact prototypeH_extends st self (OperandH.num (-s)) _ st' r h
  | dict d =>
    obtain ⟨⟨ext2, hext2⟩, hfr⟩ :=
      prototypeH_extends (negH st d).1 self (OperandH.dict (negH st d).2) _ st' r h
    obtain ⟨ext1, hext1⟩ := allocMapH_store Tensor.negT d st
    have hst : st' = st ++ (ext1 ++ ext2) := by
      rw [hext2]
      show (negH st d).1 ++ ext2 = _
      rw [show (negH st d).1 = st ++ ext1 from hext1]
      simp
    refine ⟨⟨ext1 ++ ext2, hst⟩, ?_⟩
    intro q hq
    have := hfr q hq
    have hlen : st.length ≤ (negH st d).1.length := by
      rw [show (negH st d).1 = st ++ ext1 from hext1]
      simp
    omega
  | other => cases h

lemma preservesOf (run : Store → HDict → OperandH → Except Err (Store × HDict))
    (hrun : ∀ (st : Store) (X : HDict) (o : OperandH) (st' : Store) (r : HDict),
      run st X o = Except.ok (st', r) →
      (∃ ext, st' = st ++ ext) ∧ (∀ q ∈ r, st.length ≤ q.2)) :
    preservesNumOp run ∧ preservesDictOp run := by
  constructor
  · intro st X s st' r h hX
    obtain ⟨⟨ext, hext⟩, hf⟩ := hrun st X _ st' r h
    subst hext
    exact ⟨contentOf_extend st ext X hX, hf⟩
  · intro st X Y st' r h hX hY
    obtain ⟨⟨ext, hext⟩, hf⟩ := hrun st X _ st' r h
    subst hext
    exact ⟨contentOf_extend st ext X hX, contentOf_extend st ext Y hY, hf⟩

lemma sub_dict_vals (A B : ParamDict) (h : ∀ p ∈ A, (List.lookup p.1 B).isSome = true) :
    Except.map vals (ParamDict.sub A (Operand.dict B)) =
      Except.ok (A.map fun p => (p.1, p.2.val + -(((List.lookup p.1 B).getD zeroT).val))) := by
  have hl : ∀ p ∈ A, (List.lookup p.1 (ParamDict.neg B)).isSome = true := by
    intro p hp
    rw [lookup_neg]
    cases hx : List.lookup p.1 B with
    | none =>
      have h1 := h p hp
      rw [hx] at h1
      simp at h1
    | some t => rfl
  show Except.map vals (protoDict (fun a b => a + b) (ParamDict.neg B) A) = _
  rw [protoDict_ok _ (ParamDict.neg B) A hl]
  simp only [Except.map, vals, List.map_map]
  congr 1
  apply List.map_congr_left
  intro p hp
  rw [Function.comp_apply, lookup_neg]
  cases hx : List.lookup p.1 B <;>
    simp [Tensor.binop, Tensor.cpu, Tensor.negT, zeroT]

/- Claim theorems. -/

/-- Claim C1: for every map `A` and map operand `B`, `A - B` computes
`A.__add__(B.__neg__())`, so each result value is `self[k] + (-other[k])`;
in particular `{"w1": 2, "w2": 4} - {"w1": 1, "w2": 1} = {"w1": 1, "w2": 3}`. -/
theorem sub_eq_add_of_neg :
    (∀ (A B : ParamDict),
      ParamDict.sub A (Operand.dict B) = ParamDict.add A (Operand.dict (ParamDict.neg B)))
    ∧ (∀ (A B : ParamDict), keysMatch A B →
      Except.map vals (ParamDict.sub A (Operand.dict B)) =
        Except.ok (A.map fun p => (p.1, p.2.val + -(((List.lookup p.1 B).getD zeroT).val))))
    ∧ ParamDict.sub [("w1", ⟨2, Device.cpu⟩), ("w2", ⟨4, Device.cpu⟩)]
        (Operand.dict [("w1", ⟨1, Device.cpu⟩), ("w2", ⟨1, Device.cpu⟩)]) =
      Except.ok [("w1", ⟨1, Device.cpu⟩), ("w2", ⟨3, Device.cpu⟩)] := by
  refine ⟨fun A B => rfl, ?_, ?_⟩
  case refine_2 =>
    simp only [ParamDict.sub, ParamDict.rsub, Operand.negOp, ParamDict.add,
      ParamDict.prototype, protoDict, protoNum, ParamDict.neg, Tensor.binop, Tensor.cpu,
      Tensor.negT, Tensor.scalarOp, Except.map, Except.bind, List.map_cons, List.map_nil,
      List.lookup, String.reduceBEq, beq_self_eq_true]
    norm_num
  intro A B h
  exact sub_dict_vals A B h.1

/-- Witness for C1 at the concrete maps from the claim. -/
theorem sub_eq_add_of_neg_w :
    Except.map vals (ParamDict.sub [("w1", (⟨2, Device.cpu⟩ : Tensor)), ("w2", ⟨4, Device.cpu⟩)]
      (Operand.dict [("w1", ⟨1, Device.cpu⟩), ("w2", ⟨1, Device.cpu⟩)])) =
    Except.ok [("w1", (1 : ℚ)), ("w2", (3 : ℚ))] := by
  have h := sub_eq_add_of_neg.2.1 [("w1", ⟨2, Device.cpu⟩), ("w2", ⟨4, Device.cpu⟩)]
    [("w1", ⟨1, Device.cpu⟩), ("w2", ⟨1, Device.cpu⟩)] (by decide)
  rw [h]
  simp only [List.map_cons, List.map_nil, List.lookup, String.reduceBEq, beq_self_eq_true,
    Option.getD, zeroT]
  norm_num

/-- Claim C2 is false on the code: `__truediv__` shares `_prototype`, whose
`Number` branch applies to division as well, so dividing by a scalar
succeeds instead of failing. Concretely `{"w1": 4} / 2 = {"w1": 2}`. -/
theorem div_scalar_succeeds :
    ParamDict.div [("w1", ⟨4, Device.cpu⟩)] (Operand.num 2) =
      Except.ok [("w1", ⟨2, Device.cpu⟩)] := by
  simp only [ParamDict.div, ParamDict.prototype, protoNum, Tensor.cpu, Tensor.scalarOp,
    List.map_cons, List.map_nil]
  norm_num

/-- Claim C2 amended: division supports both operand kinds — for a scalar
`s`, every value becomes `self[k] / s` moved to host memory; for a map
operand with identical keys, every value is `self[k] / other[k]`. -/
theorem div_operand_kinds (A B : ParamDict) (s : ℚ) (h : keysMatch A B) :
    ParamDict.div A (Operand.num s) =
      Except.ok (A.map fun p => (p.1, Tensor.mk (p.2.val / s) Device.cpu))
    ∧ Except.map vals (ParamDict.div A (Operand.dict B)) =
      Except.ok (A.map fun p => (p.1, p.2.val / ((List.lookup p.1 B).getD zeroT).val)) := by
  constructor
  · rfl
  · show Except.map vals (protoDict (fun a b => a / b) B A) = _
    rw [protoDict_ok _ B A h.1]
    simp only [Except.map, vals, List.map_map]
    rfl

/-- Witness for the amended C2 at concrete maps. -/
theorem div_operand_kinds_w :
    ParamDict.div [("w1", (⟨4, Device.cpu⟩ : Tensor))] (Operand.num 2) =
      Except.ok [("w1", ⟨2, Device.cpu⟩)]
    ∧ Except.map vals (ParamDict.div [("w1", (⟨4, Device.cpu⟩ : Tensor))]
        (Operand.dict [("w1", ⟨2, Device.cuda⟩)])) = Except.ok [("w1", (2 : ℚ))] := by
  have h := div_operand_kinds [("w1", ⟨4, Device.cpu⟩)] [("w1", ⟨2, Device.cuda⟩)] 2 (by decide)
  constructor
  · rw [h.1]
    simp only [List.map_cons, List.map_nil]
    norm_num
  · rw [h.2]
    simp only [List.map_cons, List.map_nil, List.lookup, String.reduceBEq, beq_self_eq_true,
      Option.getD, zeroT]
    norm_num

/-- Claim C3: adding a map operand that is missing one of `self`'s keys
raises `KeyError` (a lookup failure), not a partial result. -/
theorem add_missing_key_raises (A B : ParamDict)
    (h : ∃ p ∈ A, List.lookup p.1 B = none) :
    isKeyErr (ParamDict.add A (Operand.dict B)) = true :=
  protoDict_err (fun a b => a + b) B A h

/-- Witness for C3: `B` lacks key `"w1"` present in `A`. -/
theorem add_missing_key_raises_w :
    isKeyErr (ParamDict.add [("w1", (⟨2, Device.cpu⟩ : Tensor)), ("w2", ⟨4, Device.cpu⟩)]
      (Operand.dict [("w2", ⟨1, Device.cpu⟩)])) = true :=
  add_missing_key_raises [("w1", ⟨2, Device.cpu⟩), ("w2", ⟨4, Device.cpu⟩)]
    [("w2", ⟨1, Device.cpu⟩)] (by decide)

/-- Claim C4: `add`, `scale` (mul) and `divide` raise `NotImplementedError`
exactly when the operand is neither a scalar number nor a dict; a scalar or a
key-matched dict operand never raises. -/
theorem arithmetic_operand_kinds (A B : ParamDict) (s : ℚ) (h : keysMatch A B) :
    (ParamDict.add A Operand.other = Except.error Err.notImplemented
      ∧ ParamDict.mul A Operand.other = Except.error Err.notImplemented
      ∧ ParamDict.div A Operand.other = Except.error Err.notImplemented)
    ∧ (exOk (ParamDict.add A (Operand.num s)) = true
      ∧ exOk (ParamDict.mul A (Operand.num s)) = true
      ∧ exOk (ParamDict.div A (Operand.num s)) = true)
    ∧ (exOk (ParamDict.add A (Operand.dict B)) = true
      ∧ exOk (ParamDict.mul A (Operand.dict B)) = true
      ∧ exOk (ParamDict.div A (Operand.dict B)) = true) := by
  have hgen : ∀ op : ℚ → ℚ → ℚ, exOk (protoDict op B A) = true := by
    intro op
    rw [protoDict_ok op B A h.1]
    rfl
  exact ⟨⟨rfl, rfl, rfl⟩, ⟨rfl, rfl, rfl⟩, hgen _, hgen _, hgen _⟩

/-- Witness for C4 at concrete maps. -/
theorem arithmetic_operand_kinds_w :
    (ParamDict.add [("w1", (⟨3, Device.cuda⟩ : Tensor))] Operand.other =
        Except.error Err.notImplemented
      ∧ ParamDict.mul [("w1", (⟨3, Device.cuda⟩ : Tensor))] Operand.other =
        Except.error Err.notImplemented
      ∧ ParamDict.div [("w1", (⟨3, Device.cuda⟩ : Tensor))] Operand.other =
        Except.error Err.notImplemented)
    ∧ (exOk (ParamDict.add [("w1", (⟨3, Device.cuda⟩ : Tensor))] (Operand.num 5)) = true
      ∧ exOk (ParamDict.mul [("w1", (⟨3, Device.cuda⟩ : Tensor))] (Operand.num 5)) = true
      ∧ exOk (ParamDict.div [("w1", (⟨3, Device.cuda⟩ : Tensor))] (Operand.num 5)) = true)
    ∧ (exOk (ParamDict.add [("w1", (⟨3, Device.cuda⟩ : Tensor))]
        (Operand.dict [("w1", ⟨2, Device.cpu⟩)])) = true
      ∧ exOk (ParamDict.mul [("w1", (⟨3, Device.cuda⟩ : Tensor))]
        (Operand.dict [("w1", ⟨2, Device.cpu⟩)])) = true
      ∧ exOk (ParamDict.div [("w1", (⟨3, Device.cuda⟩ : Tensor))]
        (Operand.dict [("w1", ⟨2, Device.cpu⟩)])) = true) :=
  arithmetic_operand_kinds [("w1", ⟨3, Device.cuda⟩)] [("w1", ⟨2, Device.cpu⟩)] 5 (by decide)

/-- Claim C6: the scalar add round-trip `A.add(s).add(-s)` preserves the
key-value contents of `A` (exact arithmetic on the values). -/
theorem add_scalar_roundtrip (A : ParamDict) (s : ℚ) :
    Except.map vals ((ParamDict.add A (Operand.num s)).bind
      (fun r => ParamDict.add r (Operand.num (-s)))) = Except.ok (vals A) := by
  show Except.ok (vals (protoNum (fun a b => a + b) (-s) (protoNum (fun a b => a + b) s A))) =
    Except.ok (vals A)
  congr 1
  simp only [vals, protoNum, List.map_map]
  apply List.map_congr_left
  intro p hp
  simp [Tensor.cpu, Tensor.scalarOp]

/-- Claim C7: for maps with identical key sets, `A.add(B).subtract(B)`
preserves the key-value contents of `A` (exact arithmetic on the values). -/
theorem add_dict_sub_roundtrip (A B : ParamDict) (h : keysMatch A B) :
    Except.map vals ((ParamDict.add A (Operand.dict B)).bind
      (fun r => ParamDict.sub r (Operand.dict B))) = Except.ok (vals A) := by
  have h1 := protoDict_ok (fun a b => a + b) B A h.1
  show Except.map vals ((protoDict (fun a b => a + b) B A).bind
      (fun r => ParamDict.sub r (Operand.dict B))) = _
  rw [h1]
  show Except.map vals (ParamDict.sub (A.map fun p =>
      (p.1, Tensor.binop (fun a b => a + b) (Tensor.cpu p.2)
        (Tensor.cpu ((List.lookup p.1 B).getD zeroT)))) (Operand.dict B)) = _
  rw [sub_dict_vals _ B (by
    intro q hq
    obtain ⟨p, hp, rfl⟩ := List.mem_map.mp hq
    exact h.1 p hp)]
  congr 1
  simp only [vals, List.map_map]
  apply List.map_congr_left
  intro p hp
  simp [Tensor.binop, Tensor.cpu]

/-- Claim C8: negate keeps every value's device (no host transfer) while
negating the values; add, scale (mul) and divide always produce values on
host (CPU) memory. -/
theorem neg_keeps_device_binops_cpu :
    (∀ A : ParamDict, vals (ParamDict.neg A) = A.map fun p => (p.1, -p.2.val))
    ∧ (∀ A : ParamDict, (ParamDict.neg A).map (fun p => p.2.dev) = A.map fun p => p.2.dev)
    ∧ (∀ (A : ParamDict) (o : Operand) (r : ParamDict),
        ParamDict.add A o = Except.ok r → ∀ p ∈ r, p.2.dev = Device.cpu)
    ∧ (∀ (A : ParamDict) (o : Operand) (r : ParamDict),
        ParamDict.mul A o = Except.ok r → ∀ p ∈ r, p.2.dev = Device.cpu)
    ∧ (∀ (A : ParamDict) (o : Operand) (r : ParamDict),
        ParamDict.div A o = Except.ok r → ∀ p ∈ r, p.2.dev = Device.cpu) := by
  refine ⟨?_, ?_,
    fun A o r h => prototype_dev A o (fun a b => a + b) r h,
    fun A o r h => prototype_dev A o (fun a b => a * b) r h,
    fun A o r h => prototype_dev A o (fun a b => a / b) r h⟩
  · intro A
    simp only [vals, ParamDict.neg, List.map_map]
    rfl
  · intro A
    simp only [ParamDict.neg, List.map_map]
    rfl

/-- Witness for C8: an entry of a concrete `add` result is on the CPU. -/
theorem neg_keeps_device_binops_cpu_w :
    (("w1", (⟨5, Device.cpu⟩ : Tensor)) : String × Tensor).2.dev = Device.cpu := by
  have hrun : ParamDict.add [("w1", (⟨3, Device.cuda⟩ : Tensor))] (Operand.num 2) =
      Except.ok [("w1", ⟨5, Device.cpu⟩)] := by
    simp only [ParamDict.add, ParamDict.prototype, protoNum, Tensor.cpu, Tensor.scalarOp,
      List.map_cons, List.map_nil]
    norm_num
  exact neg_keeps_device_binops_cpu.2.2.1 [("w1", ⟨3, Device.cuda⟩)] (Operand.num 2)
    [("w1", ⟨5, Device.cpu⟩)] hrun ("w1", ⟨5, Device.cpu⟩) (by simp)

/-- Claim C9: `__init__` forwards kwarg KEYS as extra positional arguments
(`*kwargs` instead of `**kwargs`), so keyword construction fails instead of
storing the pairs; only a single positional mapping is copied. -/
theorem init_star_kwargs (d : ParamDict) (kw : List (String × Tensor))
    (h1 : kw ≠ []) (h2 : ∀ p ∈ kw, p.1 ≠ "") :
    ParamDict.init [InitArg.mapping d] [] = Except.ok d
    ∧ exOk (ParamDict.init [] kw) = false
    ∧ exOk (ParamDict.init [InitArg.mapping d] kw) = false := by
  refine ⟨rfl, ?_, ?_⟩
  · cases kw with
    | nil => exact absurd rfl h1
    | cons p rest =>
      cases rest with
      | nil =>
        have hp : p.1 ≠ "" := h2 p (by simp)
        show exOk (if p.1 = "" then Except.ok [] else Except.error Err.valueErr) = false
        rw [if_neg hp]
        rfl
      | cons q rest2 => rfl
  · cases kw with
    | nil => exact absurd rfl h1
    | cons p rest => rfl

/-- Witness for C9: `ParamDict(w1=t)` fails; `ParamDict(mapping)` copies. -/
theorem init_star_kwargs_w :
    ParamDict.init [InitArg.mapping [("a", (⟨1, Device.cpu⟩ : Tensor))]] [] =
      Except.ok [("a", ⟨1, Device.cpu⟩)]
    ∧ exOk (ParamDict.init [] [("w1", (⟨1, Device.cpu⟩ : Tensor))]) = false
    ∧ exOk (ParamDict.init [InitArg.mapping [("a", (⟨1, Device.cpu⟩ : Tensor))]]
        [("w1", ⟨1, Device.cpu⟩)]) = false :=
  init_star_kwargs [("a", ⟨1, Device.cpu⟩)] [("w1", ⟨1, Device.cpu⟩)]
    (by decide) (by decide)

/-- Claim C10: `__sub__` is the very same function as `__rsub__`, so both
`A - s` and `s - A` produce the map with values `A[k] - s`. -/
theorem sub_alias_scalar_semantics :
    ParamDict.sub = ParamDict.rsub
    ∧ (∀ (A : ParamDict) (s : ℚ),
        Except.map vals (ParamDict.rsub A (Operand.num s)) =
          Except.ok (A.map fun p => (p.1, p.2.val - s)))
    ∧ (∀ (A : ParamDict) (s : ℚ),
        Except.map vals (ParamDict.sub A (Operand.num s)) =
          Except.ok (A.map fun p => (p.1, p.2.val - s))) := by
  have key : ∀ (A : ParamDict) (s : ℚ),
      Except.map vals (ParamDict.rsub A (Operand.num s)) =
        Except.ok (A.map fun p => (p.1, p.2.val - s)) := by
    intro A s
    show Except.ok (vals (protoNum (fun a b => a + b) (-s) A)) = _
    congr 1
    simp only [vals, protoNum, List.map_map]
    apply List.map_congr_left
    intro p hp
    simp [Tensor.cpu, Tensor.scalarOp, sub_eq_add_neg]
  exact ⟨rfl, key, key⟩

/-- Claim C5: every arithmetic operation (add, scale, negate, subtract,
divide) leaves the key-value contents of both operands unchanged and returns
a map of freshly allocated cells (a new instance). -/
theorem arith_ops_preserve_operands :
    (preservesNumOp addH ∧ preservesDictOp addH)
    ∧ (preservesNumOp mulH ∧ preservesDictOp mulH)
    ∧ (preservesNumOp divH ∧ preservesDictOp divH)
    ∧ (preservesNumOp subH ∧ preservesDictOp subH)
    ∧ (∀ (st : Store) (X : HDict), (∀ p ∈ X, p.2 < st.length) →
        contentOf (negH st X).1 X = contentOf st X
        ∧ (∀ p ∈ (negH st X).2, st.length ≤ p.2)) := by
  refine ⟨preservesOf addH (fun st X o st' r h =>
      prototypeH_extends st X o (fun a b => a + b) st' r h),
    preservesOf mulH (fun st X o st' r h =>
      prototypeH_extends st X o (fun a b => a * b) st' r h),
    preservesOf divH (fun st X o st' r h =>
      prototypeH_extends st X o (fun a b => a / b) st' r h),
    preservesOf subH (fun st X o st' r h => subH_extends st X o st' r h),
    ?_⟩
  intro st X hX
  obtain ⟨ext, hext⟩ := allocMapH_store Tensor.negT X st
  constructor
  · show contentOf (allocMapH Tensor.negT st X).1 X = contentOf st X
    rw [hext]
    exact contentOf_extend st ext X hX
  · exact allocMapH_fresh Tensor.negT X st

/-- Witness for C5: a concrete heap `add` with a map operand leaves the
contents of both operand dicts unchanged. -/
theorem arith_ops_preserve_operands_w :
    contentOf [⟨5, Device.cuda⟩, ⟨7, Device.cpu⟩, ⟨12, Device.cpu⟩] [("w1", 0)] =
      contentOf [⟨5, Device.cuda⟩, ⟨7, Device.cpu⟩] [("w1", 0)]
    ∧ contentOf [⟨5, Device.cuda⟩, ⟨7, Device.cpu⟩, ⟨12, Device.cpu⟩] [("w1", 1)] =
      contentOf [⟨5, Device.cuda⟩, ⟨7, Device.cpu⟩] [("w1", 1)] := by
  have hrun : addH [⟨5, Device.cuda⟩, ⟨7, Device.cpu⟩] [("w1", 0)]
      (OperandH.dict [("w1", 1)]) =
      Except.ok ([⟨5, Device.cuda⟩, ⟨7, Device.cpu⟩, ⟨12, Device.cpu⟩], [("w1", 2)]) := by
    simp [addH, prototypeH, protoDictH, readT, Tensor.binop, Tensor.cpu, zeroT, List.lookup]
    norm_num [Except.map]
  have h := arith_ops_preserve_operands.1.2 [⟨5, Device.cuda⟩, ⟨7, Device.cpu⟩]
    [("w1", 0)] [("w1", 1)] [⟨5, Device.cuda⟩, ⟨7, Device.cpu⟩, ⟨12, Device.cpu⟩]
    [("w1", 2)] hrun (by decide) (by decide)
  exact ⟨h.1, h.2.1⟩

/-- Witness for C7 at concrete maps with identical key sets. -/
theorem add_dict_sub_roundtrip_w :
    Except.map vals ((ParamDict.add [("w1", (⟨2, Device.cpu⟩ : Tensor))]
      (Operand.dict [("w1", ⟨1, Device.cuda⟩)])).bind
      (fun r => ParamDict.sub r (Operand.dict [("w1", ⟨1, Device.cuda⟩)]))) =
    Except.ok (vals [("w1", (⟨2, Device.cpu⟩ : Tensor))]) :=
  add_dict_sub_roundtrip [("w1", ⟨2, Device.cpu⟩)] [("w1", ⟨1, Device.cuda⟩)] (by decide)
